import Mathlib

/-!
Verification of the arbitrage opportunity detector
(`src/structs/arbitrage_finder.rs`).

The detector compares a Binance book-ticker quote against a Pyth oracle
price band and signals deduplicated arbitrage opportunities.  The decimal
substrate (`rust_decimal::Decimal`) is modelled as exact sign-magnitude
fixed-point arithmetic over an integer mantissa and a base-10 scale, with
the substrate's 28-digit scale cap and 96-bit mantissa cap.  Digits beyond
the scale cap are dropped with half-up rounding on the leading dropped
digit, mirroring the substrate's rescaling of over-precise products; in
the far region where an addition's aligned mantissa leaves 96 bits the
model reports overflow.  Panicking operations (`unwrap` on parse,
conversion or checked arithmetic) are modelled by an outer `Option`:
`none` is a propagated fatal error, `some (none, st)` is the legitimate
"no opportunity" return.
-/

/-- A decimal number `mantissa * 10^(-scale)`, the shape of
`rust_decimal::Decimal` (sign-magnitude 96-bit mantissa, scale 0..28).
The bounds are enforced by the checked operations, not by the type. -/
structure Dec where
  mantissa : Int
  scale : Nat
deriving DecidableEq, Repr

/-- Rational value of a decimal. -/
def Dec.val (x : Dec) : ℚ := mkRat x.mantissa (10 ^ x.scale)

/-- Numeric equality test, as `Decimal`'s `PartialEq` (value comparison,
scale-insensitive). -/
def Dec.eqb (x y : Dec) : Bool := decide (x.val = y.val)

/-- Numeric strict order test, as `Decimal`'s `PartialOrd`. -/
def Dec.ltb (x y : Dec) : Bool := decide (x.val < y.val)

/-- `Decimal::new(m, s)`: panics (modelled `none`) iff the scale exceeds
the 28-digit cap. -/
def Dec.newChecked (m : Int) (s : Nat) : Option Dec :=
  if s ≤ 28 then some ⟨m, s⟩ else none

/-- Reapply the sign of `sgn` to a nonnegative magnitude. -/
def applySign (sgn : Int) (mag : Nat) : Int :=
  if sgn < 0 then -(mag : Int) else (mag : Int)

/-- Drop `k ≥ 1` trailing decimal digits of a magnitude, rounding half-up
on the leading dropped digit (the substrate's rescale of an over-precise
product). -/
def scaleDown (n : Nat) (k : Nat) : Nat :=
  n / 10 ^ k + (if 5 ≤ n / 10 ^ (k - 1) % 10 then 1 else 0)

/-- Reduce the scale one digit at a time (rounding half-up) until the
magnitude fits in 96 bits; overflow once the scale is exhausted. -/
def fitLoop : Nat → Nat → Option (Nat × Nat)
  | mag, 0 => if mag < 2 ^ 96 then some (mag, 0) else none
  | mag, s + 1 =>
    if mag < 2 ^ 96 then some (mag, s + 1)
    else fitLoop (mag / 10 + (if 5 ≤ mag % 10 then 1 else 0)) s

/-- `Decimal::checked_mul`: exact product; a combined scale beyond 28 is
rescaled away with rounding, and a mantissa beyond 96 bits consumes
further scale digits before reporting overflow. -/
def Dec.checkedMul (x y : Dec) : Option Dec :=
  if 28 < x.scale + y.scale then
    match fitLoop (scaleDown (x.mantissa * y.mantissa).natAbs (x.scale + y.scale - 28)) 28 with
    | none => none
    | some (mag, s) => some ⟨applySign (x.mantissa * y.mantissa) mag, s⟩
  else
    match fitLoop (x.mantissa * y.mantissa).natAbs (x.scale + y.scale) with
    | none => none
    | some (mag, s) => some ⟨applySign (x.mantissa * y.mantissa) mag, s⟩

/-- `Decimal::checked_add`: align both mantissas to the larger scale and
add; overflow if the result leaves 96 bits. -/
def Dec.checkedAdd (x y : Dec) : Option Dec :=
  if (x.mantissa * 10 ^ (max x.scale y.scale - x.scale) +
      y.mantissa * 10 ^ (max x.scale y.scale - y.scale)).natAbs < 2 ^ 96 then
    some ⟨x.mantissa * 10 ^ (max x.scale y.scale - x.scale) +
      y.mantissa * 10 ^ (max x.scale y.scale - y.scale), max x.scale y.scale⟩
  else none

/-- `Decimal::checked_sub` (and the panicking `-` operator), as addition
of the negation. -/
def Dec.checkedSub (x y : Dec) : Option Dec :=
  Dec.checkedAdd x ⟨-y.mantissa, y.scale⟩

/-- Value of a decimal digit character. -/
def digitVal (c : Char) : Option Nat :=
  if c.isDigit then some (c.toNat - 48) else none

/-- Parse a digit run, returning its value and length. -/
def parseDigitsAux : List Char → Nat → Nat → Option (Nat × Nat)
  | [], acc, n => some (acc, n)
  | c :: cs, acc, n =>
    match digitVal c with
    | some d => parseDigitsAux cs (acc * 10 + d) (n + 1)
    | none => none

/-- Split a character list at the first dot. -/
def splitDot : List Char → List Char × Option (List Char)
  | [] => ([], none)
  | c :: rest =>
    if c = '.' then ([], some rest)
    else
      match splitDot rest with
      | (i, f) => (c :: i, f)

/-- `Decimal::from_str`: optional sign, digit run, optional fractional
digit run after a single dot; fails on anything else, on an empty digit
string, on more than 28 fractional digits, or on a mantissa of 96 bits
or more. -/
def parseDec (s : String) : Option Dec :=
  match s.data with
  | [] => none
  | c :: cs =>
    let (neg, body) : Bool × List Char :=
      if c = '-' then (true, cs) else if c = '+' then (false, cs) else (false, c :: cs)
    match splitDot body with
    | (intPart, fracPart) =>
      match parseDigitsAux intPart 0 0 with
      | none => none
      | some (iv, ilen) =>
        match (match fracPart with
               | none => some (0, 0)
               | some f => parseDigitsAux f 0 0) with
        | none => none
        | some (fv, flen) =>
          if ilen + flen = 0 then none
          else if 28 < flen then none
          else if iv * 10 ^ flen + fv < 2 ^ 96 then
            some ⟨applySign (if neg then -1 else 1) (iv * 10 ^ flen + fv), flen⟩
          else none

/-- The fields of `pyth_sdk_solana::Price` read by the detector:
`price: i64`, `conf: u64`, `expo: i32` (the remaining feed metadata is
never inspected). -/
structure Price where
  price : Int
  conf : Nat
  expo : Int
deriving DecidableEq, Repr

/-- The fields of the Binance `BookTickerData` snapshot read by the
detector: best bid price `b`, best bid quantity `B`, best ask price `a`,
best ask quantity `A`, all decimal strings (the symbol and update-id
fields are never inspected). -/
structure BookTickerData where
  b : String
  B : String
  a : String
  A : String
deriving DecidableEq, Repr

/-- Direction of an arbitrage opportunity. -/
inductive ArbitrageDirection where
  | SellBinanceBuyDex
  | BuyBinanceSellDex
deriving DecidableEq, Repr

/-- A detected arbitrage opportunity. -/
structure ArbitrageOpportunity where
  direction : ArbitrageDirection
  quantity : Dec
  estimated_profit : Dec
  binance_price : Dec
  pyth_price : Dec
deriving DecidableEq, Repr

/-- Derived `PartialEq` of `ArbitrageOpportunity`: fieldwise, with
numeric comparison on the decimal fields. -/
def ArbitrageOpportunity.beq (x y : ArbitrageOpportunity) : Bool :=
  decide (x.direction = y.direction) && Dec.eqb x.quantity y.quantity &&
    Dec.eqb x.estimated_profit y.estimated_profit &&
    Dec.eqb x.binance_price y.binance_price && Dec.eqb x.pyth_price y.pyth_price

/-- Detector state: the last emitted opportunity.  The source declares
the field as `Option<ArbitrageOpportunity>` while its dedup block
destructures a triple `(last_opportunity, pyth_price, binance_price)`;
both readings coincide because the triple's price components are exactly
the stored opportunity's `pyth_price` and `binance_price` fields, which
the model compares explicitly below. -/
structure ArbitrageFinder where
  last_found : Option ArbitrageOpportunity
deriving DecidableEq, Repr

/-- The dedup test of `find_opportunity`: the stored opportunity equals
the candidate, its oracle band edge equals the edge in use and the
exchange price in use equals its stored exchange price. -/
def dedup_check (last : Option ArbitrageOpportunity) (cand : ArbitrageOpportunity)
    (edge exch : Dec) : Bool :=
  match last with
  | none => false
  | some lastOpp =>
    lastOpp.beq cand && Dec.eqb lastOpp.pyth_price edge && Dec.eqb exch lastOpp.binance_price

/-- Tail of either directional branch: suppress an exact duplicate of
`last_found`, otherwise store the candidate and return it. -/
def branch_result (st : ArbitrageFinder) (cand : ArbitrageOpportunity)
    (edge exch : Dec) : Option ArbitrageOpportunity × ArbitrageFinder :=
  match dedup_check st.last_found cand edge exch with
  | true => (none, st)
  | false => (some cand, ⟨some cand⟩)

/-- `ArbitrageFinder::get_pyth_confident_95_price`: scale both the price
mantissa and the confidence by `10^(-|expo|)`, widen the confidence by
the Laplace 95% factor `2.12`, and return the upper and lower band
edges.  The `u64 → i64` conversion of the confidence panics (modelled
`none`) when the confidence is `2^63` or larger. -/
def get_pyth_confident_95_price (p : Price) : Option (Dec × Dec) :=
  match Dec.newChecked p.price p.expo.natAbs with
  | none => none
  | some price =>
    match (if p.conf < 2 ^ 63 then some (Int.ofNat p.conf) else none) with
    | none => none
    | some confI =>
      match Dec.newChecked confI p.expo.natAbs with
      | none => none
      | some confidence =>
        match Dec.checkedMul confidence ⟨212, 2⟩ with
        | none => none
        | some confidence_95 =>
          match Dec.checkedAdd price confidence_95 with
          | none => none
          | some hi =>
            match Dec.checkedSub price confidence_95 with
            | none => none
            | some lo => some (hi, lo)

/-- Body of `ArbitrageFinder::find_opportunity` once both observations
are present: compute the band, try the sell-on-Binance branch on the
best bid against the upper edge, else the buy-on-Binance branch on the
best ask against the lower edge, else report no opportunity. -/
def findCore (st : ArbitrageFinder) (pp : Price) (t : BookTickerData) :
    Option (Option ArbitrageOpportunity × ArbitrageFinder) :=
  match get_pyth_confident_95_price pp with
  | none => none
  | some (hi, lo) =>
    match parseDec t.b with
    | none => none
    | some bid =>
      match Dec.ltb hi bid with
      | true =>
        match parseDec t.B with
        | none => none
        | some q =>
          match Dec.checkedSub bid hi with
          | none => none
          | some d =>
            match Dec.checkedMul d q with
            | none => none
            | some profit =>
              some (branch_result st
                ⟨ArbitrageDirection.SellBinanceBuyDex, q, profit, bid, hi⟩ hi bid)
      | false =>
        match parseDec t.a with
        | none => none
        | some ask =>
          match Dec.ltb ask lo with
          | true =>
            match parseDec t.A with
            | none => none
            | some qa =>
              match Dec.checkedSub lo ask with
              | none => none
              | some d =>
                match Dec.checkedMul d qa with
                | none => none
                | some profit =>
                  some (branch_result st
                    ⟨ArbitrageDirection.BuyBinanceSellDex, qa, profit, ask, lo⟩ lo ask)
          | false => some (none, st)

/-- `ArbitrageFinder::find_opportunity`: read both shared cells; if
either holds no observation return no opportunity with the state
unchanged, otherwise run the detection body.  The outer `Option` carries
the fatal-error (panic) outcome. -/
def find_opportunity (st : ArbitrageFinder) (latest_pyth_price : Option Price)
    (latest_binance_ticker_data : Option BookTickerData) :
    Option (Option ArbitrageOpportunity × ArbitrageFinder) :=
  match latest_pyth_price, latest_binance_ticker_data with
  | some p, some t => findCore st p t
  | _, _ => some (none, st)

example : parseDec ("71.2833") = some ⟨712833, 4⟩ := by decide
example : parseDec ("0") = some ⟨0, 0⟩ := by decide
example : parseDec ("oops") = none := by decide
example :
    get_pyth_confident_95_price { price := 69852445, conf := 669724, expo := -6 } =
      some (⟨7127225988, 8⟩, ⟨6843263012, 8⟩) := by decide

/-! ### Substrate lemmas -/

lemma Dec.val_eq_div (x : Dec) : x.val = (x.mantissa : ℚ) / 10 ^ x.scale := by
  rw [Dec.val, Rat.mkRat_eq_div]
  push_cast
  rfl

lemma q_shift (m : Int) (a b : Nat) (h : a ≤ b) :
    ((m : ℚ) * 10 ^ (b - a)) / 10 ^ b = (m : ℚ) / 10 ^ a := by
  have hb : (10 : ℚ) ^ b = 10 ^ (b - a) * 10 ^ a := by
    rw [← pow_add]
    congr 1
    omega
  have hne : (10 : ℚ) ^ (b - a) ≠ 0 := by positivity
  rw [hb, mul_comm ((m : ℚ)) (10 ^ (b - a)), mul_div_mul_left _ _ hne]

lemma Dec.checkedAdd_val (x y z : Dec) (h : Dec.checkedAdd x y = some z) :
    z.val = x.val + y.val := by
  unfold Dec.checkedAdd at h
  split at h
  case isFalse => exact absurd h (by simp)
  case isTrue =>
    obtain rfl : z = _ := (Option.some.injEq _ _).mp h.symm
    simp only [Dec.val_eq_div]
    push_cast
    rw [add_div, q_shift _ _ _ (le_max_left x.scale y.scale),
      q_shift _ _ _ (le_max_right x.scale y.scale)]

lemma Dec.neg_val (m : Int) (s : Nat) : Dec.val ⟨-m, s⟩ = -Dec.val ⟨m, s⟩ := by
  simp only [Dec.val_eq_div]
  push_cast
  ring

lemma Dec.checkedSub_val (x y z : Dec) (h : Dec.checkedSub x y = some z) :
    z.val = x.val - y.val := by
  unfold Dec.checkedSub at h
  have := Dec.checkedAdd_val _ _ _ h
  rw [this, Dec.neg_val, ← sub_eq_add_neg]

lemma fitLoop_small (mag s : Nat) (h : mag < 2 ^ 96) : fitLoop mag s = some (mag, s) := by
  cases s with
  | zero => simp only [fitLoop, if_pos h]
  | succ n => simp only [fitLoop, if_pos h]

lemma applySign_natAbs (m : Int) : applySign m m.natAbs = m := by
  unfold applySign
  split <;> omega

lemma Dec.checkedMul_exact (x y : Dec) (hs : x.scale + y.scale ≤ 28)
    (hm : (x.mantissa * y.mantissa).natAbs < 2 ^ 96) :
    Dec.checkedMul x y = some ⟨x.mantissa * y.mantissa, x.scale + y.scale⟩ := by
  unfold Dec.checkedMul
  rw [if_neg (by omega), fitLoop_small _ _ hm]
  exact congrArg (fun z => some (Dec.mk z (x.scale + y.scale))) (applySign_natAbs _)

lemma Dec.val_mk (m : Int) (s : Nat) : Dec.val ⟨m, s⟩ = (m : ℚ) / 10 ^ s :=
  Dec.val_eq_div _

lemma Dec.checkedMul_val_exact (x y : Dec) (hs : x.scale + y.scale ≤ 28)
    (hm : (x.mantissa * y.mantissa).natAbs < 2 ^ 96) (z : Dec)
    (h : Dec.checkedMul x y = some z) : z.val = x.val * y.val := by
  rw [Dec.checkedMul_exact x y hs hm] at h
  obtain rfl : z = _ := (Option.some.injEq _ _).mp h.symm
  rw [Dec.val_mk, Dec.val_eq_div x, Dec.val_eq_div y]
  rw [div_mul_div_comm, ← pow_add]
  push_cast
  rfl

lemma applySign_nonneg (m : Int) (mag : Nat) (h : 0 ≤ m) : 0 ≤ applySign m mag := by
  unfold applySign
  split <;> omega

lemma Dec.checkedMul_mantissa_nonneg (x y z : Dec) (hx : 0 ≤ x.mantissa)
    (hy : 0 ≤ y.mantissa) (h : Dec.checkedMul x y = some z) : 0 ≤ z.mantissa := by
  have hxy : 0 ≤ x.mantissa * y.mantissa := mul_nonneg hx hy
  unfold Dec.checkedMul at h
  split at h <;>
    · split at h
      case h_1 => exact absurd h (by simp)
      case h_2 mag s heq =>
        obtain rfl : z = _ := (Option.some.injEq _ _).mp h.symm
        exact applySign_nonneg _ _ hxy

lemma Dec.val_nonneg_iff (x : Dec) : 0 ≤ x.val ↔ 0 ≤ x.mantissa := by
  have hp : (0 : ℚ) < 10 ^ x.scale := by positivity
  rw [Dec.val_eq_div, le_div_iff₀ hp, zero_mul, Int.cast_nonneg]

lemma Dec.ltb_iff (x y : Dec) : Dec.ltb x y = true ↔ x.val < y.val := by
  rw [Dec.ltb, decide_eq_true_iff]

lemma Dec.eqb_self (x : Dec) : Dec.eqb x x = true := by
  simp [Dec.eqb]

lemma ArbitrageOpportunity.beq_self (x : ArbitrageOpportunity) : x.beq x = true := by
  simp [ArbitrageOpportunity.beq, Dec.eqb_self]

lemma dedup_check_self (c : ArbitrageOpportunity) :
    dedup_check (some c) c c.pyth_price c.binance_price = true := by
  simp [dedup_check, ArbitrageOpportunity.beq_self, Dec.eqb_self]

/-! ### Concrete observations used by the development -/

/-- Oracle observation of the repository test: band `68.43263012 ..
71.27225988`. -/
def pSell : Price := { price := 69852445, conf := 669724, expo := -6 }

/-- Exchange snapshot of the repository's sell-direction test. -/
def tickSell : BookTickerData :=
  { b := "71.2833", B := "0.8574", a := "72.0012", A := "0.9245" }

/-- Exchange snapshot whose bid sits above the band but whose bid
quantity has 28 fractional digits, so the profit product overflows the
precision cap. -/
def tickTiny : BookTickerData :=
  { b := "71.3", B := "0.0000000000000000000000000001", a := "72.0012", A := "0.9245" }

/-- Exchange snapshot with a zero best-bid quantity. -/
def tickQ0 : BookTickerData :=
  { b := "71.2833", B := "0", a := "72.0012", A := "0.9245" }

/-- Exchange snapshot with a malformed best-bid price string. -/
def tickBadB : BookTickerData :=
  { b := "oops", B := "0.8574", a := "72.0012", A := "0.9245" }

/-- Exchange snapshot with 96-bit prices and quantities whose profit
product overflows even after consuming all scale digits. -/
def tickHuge : BookTickerData :=
  { b := "792281625142643375935439503.35", B := "79228162514264337593543950335",
    a := "1", A := "1" }

/-- Oracle observation whose exponent magnitude exceeds the 28-digit
scale cap. -/
def pScaleBad : Price := { price := 0, conf := 0, expo := 29 }

/-- Oracle observation whose confidence does not fit in `i64`. -/
def pConfBig : Price := { price := 0, conf := 9223372036854775808, expo := 0 }

/-- Oracle observation with a degenerate zero band. -/
def pZeroBand : Price := { price := 0, conf := 0, expo := 0 }

/-! ### Claim theorems -/

/-- C5: on the oracle observation with mantissa 4856126854, exponent -5
and confidence 612455, the confidence-band calculator returns exactly
upper = 48574.252586 and lower = 48548.284494. -/
theorem band_concrete_values :
    ((get_pyth_confident_95_price { price := 4856126854, conf := 612455, expo := -5 }).map
      fun pr => (pr.1.val, pr.2.val)) =
      some (Dec.val ⟨48574252586, 6⟩, Dec.val ⟨48548284494, 6⟩) := by
  decide

/-- C6: if either shared cell holds no observation, `find_opportunity`
returns no opportunity and leaves the detector state unchanged,
regardless of the other cell's content. -/
theorem find_opportunity_missing_data (st : ArbitrageFinder) (op : Option Price)
    (ot : Option BookTickerData) (h : op = none ∨ ot = none) :
    find_opportunity st op ot = some (none, st) := by
  cases op with
  | none => cases ot <;> rfl
  | some p =>
    cases ot with
    | none => rfl
    | some t => rcases h with h | h <;> exact absurd h (by simp)

/-- Closed instance of the missing-data theorem: oracle cell empty,
exchange cell full. -/
theorem find_opportunity_missing_data_witness :
    find_opportunity ⟨none⟩ none (some tickSell) = some (none, ⟨none⟩) :=
  find_opportunity_missing_data ⟨none⟩ none (some tickSell) (Or.inl rfl)

lemma get_pyth_conf_too_big (p : Price) (h : 2 ^ 63 ≤ p.conf) :
    get_pyth_confident_95_price p = none := by
  unfold get_pyth_confident_95_price
  cases Dec.newChecked p.price p.expo.natAbs with
  | none => rfl
  | some price => rw [if_neg (by omega)]

/-- Oracle observation at the i64 minimum, giving a large negative
band. -/
def pIntMin : Price := { price := -9223372036854775808, conf := 0, expo := 0 }

/-- Oracle observation at the i64 maximum, giving a large positive
band. -/
def pIntMax : Price := { price := 9223372036854775807, conf := 0, expo := 0 }

/-- Sell-direction snapshot whose never-parsed ask field is malformed. -/
def tickSellBadA : BookTickerData :=
  { b := "71.2833", B := "0.8574", a := "oops", A := "0.9245" }

/-- Sell-direction snapshot with a malformed bid-quantity string. -/
def tickBadBSell : BookTickerData :=
  { b := "71.2833", B := "oops", a := "72.0012", A := "0.9245" }

/-- Snapshot whose bid is so large that the bid-minus-upper subtraction
overflows against the `pIntMin` band. -/
def tickSubOverflow : BookTickerData :=
  { b := "79228162514264337593543950335", B := "1", a := "1", A := "1" }

/-- In-band bid with a malformed best-ask string. -/
def tickInBandBadA : BookTickerData :=
  { b := "69.0", B := "1", a := "oops", A := "1" }

/-- Buy-direction snapshot with a malformed ask-quantity string. -/
def tickBuyBadA : BookTickerData :=
  { b := "69.0", B := "1", a := "67.0", A := "oops" }

/-- Snapshot whose ask is so low that the lower-minus-ask subtraction
overflows against the `pIntMax` band. -/
def tickBuySubOverflow : BookTickerData :=
  { b := "1", B := "1", a := "-79228162514264337593543950335", A := "1" }

/-- Buy-direction snapshot whose profit product overflows even after
consuming all scale digits. -/
def tickBuyMulOverflow : BookTickerData :=
  { b := "0", B := "1", a := "-792281625142643375935439503.35",
    A := "79228162514264337593543950335" }

/-- The opportunity returned on the repository's sell-direction example. -/
def oppSell : ArbitrageOpportunity :=
  ⟨ArbitrageDirection.SellBinanceBuyDex, ⟨8574, 4⟩, ⟨9465798888, 12⟩,
    ⟨712833, 4⟩, ⟨7127225988, 8⟩⟩

/-- Detector state after emitting `oppSell`. -/
def stAfterSell : ArbitrageFinder := ⟨some oppSell⟩

/-- C3 counterexample: the detection pass parses exchange strings
lazily, so a malformed string on a branch it never reaches causes no
error.  On the repository's sell-direction example with the best-ask
field replaced by a non-decimal string, the sell branch fires first and
`find_opportunity` returns the normal opportunity, not an error. -/
theorem unreached_malformed_ask_counterexample :
    parseDec tickSellBadA.a = none ∧
    find_opportunity ⟨none⟩ (some pSell) (some tickSellBadA) =
      some (some oppSell, ⟨some oppSell⟩) := by
  refine ⟨by rfl, by decide⟩

/-- C3 (amended): every fatal condition the detection pass actually
evaluates propagates out of `find_opportunity` as the error outcome
(outer `none`), distinct by construction from the legitimate
no-opportunity return `some (none, st)`: a band-calculator failure, a
confidence that does not convert to `i64`, a malformed best-bid string;
on the sell branch a malformed bid-quantity string, an overflowing
subtraction or an overflowing profit multiplication; when the sell
branch is not taken, a malformed best-ask string; and on the buy branch
a malformed ask-quantity string, an overflowing subtraction or an
overflowing profit multiplication. -/
theorem find_opportunity_error_propagation (st : ArbitrageFinder) (p : Price)
    (t : BookTickerData) :
    (get_pyth_confident_95_price p = none →
        find_opportunity st (some p) (some t) = none) ∧
    (2 ^ 63 ≤ p.conf → find_opportunity st (some p) (some t) = none) ∧
    (parseDec t.b = none → find_opportunity st (some p) (some t) = none) ∧
    (∀ hi lo bid, get_pyth_confident_95_price p = some (hi, lo) →
        parseDec t.b = some bid → Dec.ltb hi bid = true → parseDec t.B = none →
        find_opportunity st (some p) (some t) = none) ∧
    (∀ hi lo bid q, get_pyth_confident_95_price p = some (hi, lo) →
        parseDec t.b = some bid → Dec.ltb hi bid = true → parseDec t.B = some q →
        Dec.checkedSub bid hi = none →
        find_opportunity st (some p) (some t) = none) ∧
    (∀ hi lo bid q d, get_pyth_confident_95_price p = some (hi, lo) →
        parseDec t.b = some bid → Dec.ltb hi bid = true → parseDec t.B = some q →
        Dec.checkedSub bid hi = some d → Dec.checkedMul d q = none →
        find_opportunity st (some p) (some t) = none) ∧
    (∀ hi lo bid, get_pyth_confident_95_price p = some (hi, lo) →
        parseDec t.b = some bid → Dec.ltb hi bid = false → parseDec t.a = none →
        find_opportunity st (some p) (some t) = none) ∧
    (∀ hi lo bid ask, get_pyth_confident_95_price p = some (hi, lo) →
        parseDec t.b = some bid → Dec.ltb hi bid = false → parseDec t.a = some ask →
        Dec.ltb ask lo = true → parseDec t.A = none →
        find_opportunity st (some p) (some t) = none) ∧
    (∀ hi lo bid ask qa, get_pyth_confident_95_price p = some (hi, lo) →
        parseDec t.b = some bid → Dec.ltb hi bid = false → parseDec t.a = some ask →
        Dec.ltb ask lo = true → parseDec t.A = some qa →
        Dec.checkedSub lo ask = none →
        find_opportunity st (some p) (some t) = none) ∧
    (∀ hi lo bid ask qa d, get_pyth_confident_95_price p = some (hi, lo) →
        parseDec t.b = some bid → Dec.ltb hi bid = false → parseDec t.a = some ask →
        Dec.ltb ask lo = true → parseDec t.A = some qa →
        Dec.checkedSub lo ask = some d → Dec.checkedMul d qa = none →
        find_opportunity st (some p) (some t) = none) := by
  refine ⟨?_, ?_, ?_, ?_, ?_, ?_, ?_, ?_, ?_, ?_⟩
  case _ =>
    intro h
    show findCore st p t = none
    unfold findCore
    rw [h]
  case _ =>
    intro h
    show findCore st p t = none
    unfold findCore
    rw [get_pyth_conf_too_big p h]
  case _ =>
    intro h
    show findCore st p t = none
    unfold findCore
    cases hg : get_pyth_confident_95_price p with
    | none => rfl
    | some pr =>
      obtain ⟨hi, lo⟩ := pr
      rw [h]
  case _ =>
    intro hi lo bid hg hb hlt hB
    show findCore st p t = none
    unfold findCore
    simp only [hg, hb, hlt, hB]
  case _ =>
    intro hi lo bid q hg hb hlt hq hsub
    show findCore st p t = none
    unfold findCore
    simp only [hg, hb, hlt, hq, hsub]
  case _ =>
    intro hi lo bid q d hg hb hlt hq hd hm
    show findCore st p t = none
    unfold findCore
    simp only [hg, hb, hlt, hq, hd, hm]
  case _ =>
    intro hi lo bid hg hb hlt ha
    show findCore st p t = none
    unfold findCore
    simp only [hg, hb, hlt, ha]
  case _ =>
    intro hi lo bid ask hg hb hlt ha hlt2 hA
    show findCore st p t = none
    unfold findCore
    simp only [hg, hb, hlt, ha, hlt2, hA]
  case _ =>
    intro hi lo bid ask qa hg hb hlt ha hlt2 hA hsub
    show findCore st p t = none
    unfold findCore
    simp only [hg, hb, hlt, ha, hlt2, hA, hsub]
  case _ =>
    intro hi lo bid ask qa d hg hb hlt ha hlt2 hA hd hm
    show findCore st p t = none
    unfold findCore
    simp only [hg, hb, hlt, ha, hlt2, hA, hd, hm]

/-- Closed instances of the error-propagation theorem, one per
conjunct: oversized exponent; oversized confidence; malformed bid
string; malformed bid quantity on the sell branch; sell-branch
subtraction overflow; sell-branch profit-multiplication overflow;
malformed ask string past the sell check; malformed ask quantity on the
buy branch; buy-branch subtraction overflow; buy-branch
profit-multiplication overflow. -/
theorem find_opportunity_error_propagation_witness :
    find_opportunity ⟨none⟩ (some pScaleBad) (some tickSell) = none ∧
    find_opportunity ⟨none⟩ (some pConfBig) (some tickSell) = none ∧
    find_opportunity ⟨none⟩ (some pSell) (some tickBadB) = none ∧
    find_opportunity ⟨none⟩ (some pSell) (some tickBadBSell) = none ∧
    find_opportunity ⟨none⟩ (some pIntMin) (some tickSubOverflow) = none ∧
    find_opportunity ⟨none⟩ (some pZeroBand) (some tickHuge) = none ∧
    find_opportunity ⟨none⟩ (some pSell) (some tickInBandBadA) = none ∧
    find_opportunity ⟨none⟩ (some pSell) (some tickBuyBadA) = none ∧
    find_opportunity ⟨none⟩ (some pIntMax) (some tickBuySubOverflow) = none ∧
    find_opportunity ⟨none⟩ (some pZeroBand) (some tickBuyMulOverflow) = none :=
  ⟨(find_opportunity_error_propagation ⟨none⟩ pScaleBad tickSell).1 (by rfl),
   (find_opportunity_error_propagation ⟨none⟩ pConfBig tickSell).2.1 (by decide),
   (find_opportunity_error_propagation ⟨none⟩ pSell tickBadB).2.2.1 (by rfl),
   (find_opportunity_error_propagation ⟨none⟩ pSell tickBadBSell).2.2.2.1
     ⟨7127225988, 8⟩ ⟨6843263012, 8⟩ ⟨712833, 4⟩
     (by rfl) (by rfl) (by decide) (by rfl),
   (find_opportunity_error_propagation ⟨none⟩ pIntMin tickSubOverflow).2.2.2.2.1
     ⟨-922337203685477580800, 2⟩ ⟨-922337203685477580800, 2⟩
     ⟨79228162514264337593543950335, 0⟩ ⟨1, 0⟩
     (by rfl) (by rfl) (by decide) (by rfl) (by rfl),
   (find_opportunity_error_propagation ⟨none⟩ pZeroBand tickHuge).2.2.2.2.2.1
     ⟨0, 2⟩ ⟨0, 2⟩ ⟨79228162514264337593543950335, 2⟩
     ⟨79228162514264337593543950335, 0⟩ ⟨79228162514264337593543950335, 2⟩
     (by rfl) (by rfl) (by decide) (by rfl) (by rfl) (by rfl),
   (find_opportunity_error_propagation ⟨none⟩ pSell tickInBandBadA).2.2.2.2.2.2.1
     ⟨7127225988, 8⟩ ⟨6843263012, 8⟩ ⟨690, 1⟩
     (by rfl) (by rfl) (by decide) (by rfl),
   (find_opportunity_error_propagation ⟨none⟩ pSell tickBuyBadA).2.2.2.2.2.2.2.1
     ⟨7127225988, 8⟩ ⟨6843263012, 8⟩ ⟨690, 1⟩ ⟨670, 1⟩
     (by rfl) (by rfl) (by decide) (by rfl) (by decide) (by rfl),
   (find_opportunity_error_propagation ⟨none⟩ pIntMax
       tickBuySubOverflow).2.2.2.2.2.2.2.2.1
     ⟨922337203685477580700, 2⟩ ⟨922337203685477580700, 2⟩ ⟨1, 0⟩
     ⟨-79228162514264337593543950335, 0⟩ ⟨1, 0⟩
     (by rfl) (by rfl) (by decide) (by rfl) (by decide) (by rfl) (by rfl),
   (find_opportunity_error_propagation ⟨none⟩ pZeroBand
       tickBuyMulOverflow).2.2.2.2.2.2.2.2.2
     ⟨0, 2⟩ ⟨0, 2⟩ ⟨0, 0⟩ ⟨-79228162514264337593543950335, 2⟩
     ⟨79228162514264337593543950335, 0⟩ ⟨79228162514264337593543950335, 2⟩
     (by rfl) (by rfl) (by decide) (by rfl) (by decide) (by rfl) (by rfl) (by rfl)⟩

lemma dedup_check_cand (dir : ArbitrageDirection) (q profit exch edge : Dec) :
    dedup_check (some ⟨dir, q, profit, exch, edge⟩) ⟨dir, q, profit, exch, edge⟩
      edge exch = true := by
  simp [dedup_check, ArbitrageOpportunity.beq, Dec.eqb_self]

/-- C1: dedup of an unchanged situation.  If a call of
`find_opportunity` on two populated cells returns an opportunity, an
immediately repeated call with unchanged inputs recomputes the same
candidate, finds it equal to the stored `last_found` together with the
band edge and exchange price used, and returns no opportunity, leaving
the state unchanged. -/
theorem find_opportunity_dedup_second_call (st : ArbitrageFinder) (p : Price)
    (t : BookTickerData) (opp : ArbitrageOpportunity) (st2 : ArbitrageFinder)
    (h : find_opportunity st (some p) (some t) = some (some opp, st2)) :
    find_opportunity st2 (some p) (some t) = some (none, st2) := by
  show findCore st2 p t = some (none, st2)
  have h0 : findCore st p t = some (some opp, st2) := h
  unfold findCore at h0 ⊢
  cases hg : get_pyth_confident_95_price p with
  | none => simp only [hg] at h0; exact Option.noConfusion h0
  | some pr =>
    obtain ⟨hi, lo⟩ := pr
    simp only [hg] at h0 ⊢
    cases hb : parseDec t.b with
    | none => simp only [hb] at h0; exact Option.noConfusion h0
    | some bid =>
      simp only [hb] at h0 ⊢
      cases hlt : Dec.ltb hi bid with
      | true =>
        simp only [hlt] at h0 ⊢
        cases hq : parseDec t.B with
        | none => simp only [hq] at h0; exact Option.noConfusion h0
        | some q =>
          simp only [hq] at h0 ⊢
          cases hd : Dec.checkedSub bid hi with
          | none => simp only [hd] at h0; exact Option.noConfusion h0
          | some d =>
            simp only [hd] at h0 ⊢
            cases hm : Dec.checkedMul d q with
            | none => simp only [hm] at h0; exact Option.noConfusion h0
            | some profit =>
              simp only [hm] at h0 ⊢
              unfold branch_result at h0
              cases hdup : dedup_check st.last_found
                  ⟨ArbitrageDirection.SellBinanceBuyDex, q, profit, bid, hi⟩ hi bid with
              | true => simp only [hdup] at h0; simp at h0
              | false =>
                simp only [hdup, Option.some.injEq, Prod.mk.injEq] at h0
                obtain ⟨h1, h2⟩ := h0
                subst h2
                simp only [branch_result, dedup_check_cand]
      | false =>
        simp only [hlt] at h0 ⊢
        cases hask : parseDec t.a with
        | none => simp only [hask] at h0; exact Option.noConfusion h0
        | some ask =>
          simp only [hask] at h0 ⊢
          cases hlt2 : Dec.ltb ask lo with
          | true =>
            simp only [hlt2] at h0 ⊢
            cases hqa : parseDec t.A with
            | none => simp only [hqa] at h0; exact Option.noConfusion h0
            | some qa =>
              simp only [hqa] at h0 ⊢
              cases hd : Dec.checkedSub lo ask with
              | none => simp only [hd] at h0; exact Option.noConfusion h0
              | some d =>
                simp only [hd] at h0 ⊢
                cases hm : Dec.checkedMul d qa with
                | none => simp only [hm] at h0; exact Option.noConfusion h0
                | some profit =>
                  simp only [hm] at h0 ⊢
                  unfold branch_result at h0
                  cases hdup : dedup_check st.last_found
                      ⟨ArbitrageDirection.BuyBinanceSellDex, qa, profit, ask, lo⟩ lo ask with
                  | true => simp only [hdup] at h0; simp at h0
                  | false =>
                    simp only [hdup, Option.some.injEq, Prod.mk.injEq] at h0
                    obtain ⟨h1, h2⟩ := h0
                    subst h2
                    simp only [branch_result, dedup_check_cand]
          | false => simp only [hlt2] at h0; simp at h0

/-- Closed instance of the dedup theorem: the first call on the
repository's sell-direction example emits the opportunity, the repeat
call is suppressed. -/
theorem find_opportunity_dedup_second_call_witness :
    find_opportunity ⟨none⟩ (some pSell) (some tickSell) = some (some oppSell, stAfterSell) ∧
    find_opportunity stAfterSell (some pSell) (some tickSell) = some (none, stAfterSell) :=
  ⟨by decide,
   find_opportunity_dedup_second_call ⟨none⟩ pSell tickSell oppSell stAfterSell (by decide)⟩

lemma branch_result_state (st : ArbitrageFinder) (cand : ArbitrageOpportunity)
    (edge exch : Dec) (r : Option ArbitrageOpportunity) (st2 : ArbitrageFinder)
    (h : branch_result st cand edge exch = (r, st2)) :
    st2 = st ∨ st2.last_found = some cand := by
  unfold branch_result at h
  cases hdup : dedup_check st.last_found cand edge exch with
  | true =>
    rw [hdup] at h
    have h1 : st = st2 := congrArg Prod.snd h
    exact Or.inl h1.symm
  | false =>
    rw [hdup] at h
    have h2 : ({ last_found := some cand } : ArbitrageFinder) = st2 := congrArg Prod.snd h
    refine Or.inr ?_
    rw [← h2]

lemma find_opportunity_state_step (st : ArbitrageFinder) (op : Option Price)
    (ot : Option BookTickerData) (r : Option ArbitrageOpportunity) (st2 : ArbitrageFinder)
    (h : find_opportunity st op ot = some (r, st2)) :
    st2 = st ∨ ∃ c, st2.last_found = some c := by
  cases op with
  | none =>
    cases ot with
    | none => exact Or.inl (congrArg Prod.snd (Option.some.inj h)).symm
    | some t => exact Or.inl (congrArg Prod.snd (Option.some.inj h)).symm
  | some p =>
    cases ot with
    | none => exact Or.inl (congrArg Prod.snd (Option.some.inj h)).symm
    | some t =>
      have h0 : findCore st p t = some (r, st2) := h
      unfold findCore at h0
      cases hg : get_pyth_confident_95_price p with
      | none => simp only [hg] at h0; exact Option.noConfusion h0
      | some pr =>
        obtain ⟨hi, lo⟩ := pr
        simp only [hg] at h0
        cases hb : parseDec t.b with
        | none => simp only [hb] at h0; exact Option.noConfusion h0
        | some bid =>
          simp only [hb] at h0
          cases hlt : Dec.ltb hi bid with
          | true =>
            simp only [hlt] at h0
            cases hq : parseDec t.B with
            | none => simp only [hq] at h0; exact Option.noConfusion h0
            | some q =>
              simp only [hq] at h0
              cases hd : Dec.checkedSub bid hi with
              | none => simp only [hd] at h0; exact Option.noConfusion h0
              | some d =>
                simp only [hd] at h0
                cases hm : Dec.checkedMul d q with
                | none => simp only [hm] at h0; exact Option.noConfusion h0
                | some profit =>
                  simp only [hm] at h0
                  rcases branch_result_state st _ hi bid r st2 (Option.some.inj h0) with
                    h1 | h2
                  · exact Or.inl h1
                  · exact Or.inr ⟨_, h2⟩
          | false =>
            simp only [hlt] at h0
            cases hask : parseDec t.a with
            | none => simp only [hask] at h0; exact Option.noConfusion h0
            | some ask =>
              simp only [hask] at h0
              cases hlt2 : Dec.ltb ask lo with
              | true =>
                simp only [hlt2] at h0
                cases hqa : parseDec t.A with
                | none => simp only [hqa] at h0; exact Option.noConfusion h0
                | some qa =>
                  simp only [hqa] at h0
                  cases hd : Dec.checkedSub lo ask with
                  | none => simp only [hd] at h0; exact Option.noConfusion h0
                  | some d =>
                    simp only [hd] at h0
                    cases hm : Dec.checkedMul d qa with
                    | none => simp only [hm] at h0; exact Option.noConfusion h0
                    | some profit =>
                      simp only [hm] at h0
                      rcases branch_result_state st _ lo ask r st2 (Option.some.inj h0) with
                        h1 | h2
                      · exact Or.inl h1
                      · exact Or.inr ⟨_, h2⟩
              | false =>
                simp only [hlt2] at h0
                exact Or.inl (congrArg Prod.snd (Option.some.inj h0)).symm

/-- A trace of `find_opportunity` passes: one element of the list holds
the two cell snapshots read in one detection cycle; an error outcome
aborts the run. -/
def runFinder : ArbitrageFinder → List (Option Price × Option BookTickerData) →
    Option ArbitrageFinder
  | st, [] => some st
  | st, ob :: rest =>
    match find_opportunity st ob.1 ob.2 with
    | none => none
    | some (_, st2) => runFinder st2 rest

/-- C9: the detector never transitions from Armed back to Idle: over any
trace of `find_opportunity` calls, once `last_found` holds an
opportunity it is never cleared; it can only be overwritten by another
opportunity. -/
theorem last_found_never_cleared (l : List (Option Price × Option BookTickerData))
    (st st2 : ArbitrageFinder) (h : runFinder st l = some st2)
    (hsome : st.last_found.isSome = true) : st2.last_found.isSome = true := by
  induction l generalizing st with
  | nil =>
    rw [← Option.some.inj h]
    exact hsome
  | cons ob rest ih =>
    unfold runFinder at h
    cases hf : find_opportunity st ob.1 ob.2 with
    | none => rw [hf] at h; exact Option.noConfusion h
    | some pr =>
      obtain ⟨r, st3⟩ := pr
      rw [hf] at h
      rcases find_opportunity_state_step st ob.1 ob.2 r st3 hf with h1 | ⟨c, h2⟩
      · exact ih st3 h (by rw [h1]; exact hsome)
      · exact ih st3 h (by rw [h2]; rfl)

/-- Closed instance of the never-cleared theorem: an armed detector run
over an empty-cells cycle and a duplicate-suppressed cycle stays
armed. -/
theorem last_found_never_cleared_witness : stAfterSell.last_found.isSome = true :=
  last_found_never_cleared [(none, none), (some pSell, some tickSell)]
    ⟨some oppSell⟩ stAfterSell (by decide) (by decide)

/-- Rust-observable equality of opportunities: same direction and
numerically equal decimal fields. -/
def oppEquiv (x y : ArbitrageOpportunity) : Prop :=
  x.direction = y.direction ∧ x.quantity.val = y.quantity.val ∧
    x.estimated_profit.val = y.estimated_profit.val ∧
    x.binance_price.val = y.binance_price.val ∧ x.pyth_price.val = y.pyth_price.val

/-- Rust-observable equality of detector states. -/
def stateEquiv (s1 s2 : ArbitrageFinder) : Prop :=
  match s1.last_found, s2.last_found with
  | none, none => True
  | some x, some y => oppEquiv x y
  | _, _ => False

/-- Relates two `find_opportunity` outcomes: both fail, or both succeed
with equal results and observably equal final states. -/
def outEquiv : Option (Option ArbitrageOpportunity × ArbitrageFinder) →
    Option (Option ArbitrageOpportunity × ArbitrageFinder) → Prop
  | none, none => True
  | some (r1, s1), some (r2, s2) => r1 = r2 ∧ stateEquiv s1 s2
  | _, _ => False

lemma oppEquiv_refl (x : ArbitrageOpportunity) : oppEquiv x x :=
  ⟨rfl, rfl, rfl, rfl, rfl⟩

lemma dedup_check_congr (s1 s2 : ArbitrageFinder) (h : stateEquiv s1 s2) :
    ∀ cand edge exch, dedup_check s1.last_found cand edge exch =
      dedup_check s2.last_found cand edge exch := by
  intro cand edge exch
  unfold stateEquiv at h
  cases hl1 : s1.last_found with
  | none =>
    cases hl2 : s2.last_found with
    | none => rfl
    | some y => rw [hl1, hl2] at h; exact h.elim
  | some x =>
    cases hl2 : s2.last_found with
    | none => rw [hl1, hl2] at h; exact h.elim
    | some y =>
      rw [hl1, hl2] at h
      obtain ⟨h1, h2, h3, h4, h5⟩ := h
      simp only [dedup_check, ArbitrageOpportunity.beq, Dec.eqb]
      rw [h1, h2, h3, h4, h5]

/-- C10: `find_opportunity` is deterministic in the snapshot it reads:
two runs from observably equal detector states over equal cell contents
produce the same result and observably equal final states. -/
theorem find_opportunity_deterministic (s1 s2 : ArbitrageFinder) (op : Option Price)
    (ot : Option BookTickerData) (h : stateEquiv s1 s2) :
    outEquiv (find_opportunity s1 op ot) (find_opportunity s2 op ot) := by
  cases op with
  | none =>
    cases ot with
    | none => exact ⟨rfl, h⟩
    | some t => exact ⟨rfl, h⟩
  | some p =>
    cases ot with
    | none => exact ⟨rfl, h⟩
    | some t =>
      show outEquiv (findCore s1 p t) (findCore s2 p t)
      unfold findCore
      cases hg : get_pyth_confident_95_price p with
      | none => exact trivial
      | some pr =>
        obtain ⟨hi, lo⟩ := pr
        simp only [hg]
        cases hb : parseDec t.b with
        | none => exact trivial
        | some bid =>
          simp only [hb]
          cases hlt : Dec.ltb hi bid with
          | true =>
            simp only [hlt]
            cases hq : parseDec t.B with
            | none => exact trivial
            | some q =>
              simp only [hq]
              cases hd : Dec.checkedSub bid hi with
              | none => exact trivial
              | some d =>
                simp only [hd]
                cases hm : Dec.checkedMul d q with
                | none => exact trivial
                | some profit =>
                  simp only [hm]
                  unfold branch_result
                  rw [dedup_check_congr s1 s2 h]
                  cases hdup : dedup_check s2.last_found
                      ⟨ArbitrageDirection.SellBinanceBuyDex, q, profit, bid, hi⟩ hi bid with
                  | true => exact ⟨rfl, h⟩
                  | false => exact ⟨rfl, oppEquiv_refl _⟩
          | false =>
            simp only [hlt]
            cases hask : parseDec t.a with
            | none => exact trivial
            | some ask =>
              simp only [hask]
              cases hlt2 : Dec.ltb ask lo with
              | true =>
                simp only [hlt2]
                cases hqa : parseDec t.A with
                | none => exact trivial
                | some qa =>
                  simp only [hqa]
                  cases hd : Dec.checkedSub lo ask with
                  | none => exact trivial
                  | some d =>
                    simp only [hd]
                    cases hm : Dec.checkedMul d qa with
                    | none => exact trivial
                    | some profit =>
                      simp only [hm]
                      unfold branch_result
                      rw [dedup_check_congr s1 s2 h]
                      cases hdup : dedup_check s2.last_found
                          ⟨ArbitrageDirection.BuyBinanceSellDex, qa, profit, ask, lo⟩ lo ask with
                      | true => exact ⟨rfl, h⟩
                      | false => exact ⟨rfl, oppEquiv_refl _⟩
              | false => exact ⟨rfl, h⟩

/-- A scale-shifted but numerically equal copy of `oppSell`. -/
def oppSellShift : ArbitrageOpportunity :=
  ⟨ArbitrageDirection.SellBinanceBuyDex, ⟨85740, 5⟩, ⟨94657988880, 13⟩,
    ⟨7128330, 5⟩, ⟨71272259880, 9⟩⟩

/-- Closed instance of the determinism theorem: two observably equal
armed states produce related outcomes on the sell example. -/
theorem find_opportunity_deterministic_witness :
    outEquiv (find_opportunity ⟨some oppSell⟩ (some pSell) (some tickSell))
      (find_opportunity ⟨some oppSellShift⟩ (some pSell) (some tickSell)) :=
  find_opportunity_deterministic ⟨some oppSell⟩ ⟨some oppSellShift⟩
    (some pSell) (some tickSell)
    (by refine ⟨rfl, ?_, ?_, ?_, ?_⟩ <;> decide)

lemma get_pyth_band_ordered (p : Price) (hi lo : Dec)
    (hg : get_pyth_confident_95_price p = some (hi, lo)) : lo.val ≤ hi.val := by
  unfold get_pyth_confident_95_price at hg
  by_cases hc : p.conf < 2 ^ 63
  case neg =>
    cases hp : Dec.newChecked p.price p.expo.natAbs with
    | none => simp only [hp] at hg; exact Option.noConfusion hg
    | some price =>
      simp only [hp, if_neg hc] at hg
      exact Option.noConfusion hg
  case pos =>
    cases hp : Dec.newChecked p.price p.expo.natAbs with
    | none => simp only [hp] at hg; exact Option.noConfusion hg
    | some price =>
      simp only [hp, if_pos hc] at hg
      cases hcd : Dec.newChecked (Int.ofNat p.conf) p.expo.natAbs with
      | none => simp only [hcd] at hg; exact Option.noConfusion hg
      | some confidence =>
        simp only [hcd] at hg
        cases h95 : Dec.checkedMul confidence ⟨212, 2⟩ with
        | none => simp only [h95] at hg; exact Option.noConfusion hg
        | some c95 =>
          simp only [h95] at hg
          cases hadd : Dec.checkedAdd price c95 with
          | none => simp only [hadd] at hg; exact Option.noConfusion hg
          | some hiv =>
            simp only [hadd] at hg
            cases hsub : Dec.checkedSub price c95 with
            | none => simp only [hsub] at hg; exact Option.noConfusion hg
            | some lov =>
              simp only [hsub, Option.some.injEq, Prod.mk.injEq] at hg
              obtain ⟨e1, e2⟩ := hg
              have hconf : confidence.mantissa = Int.ofNat p.conf := by
                unfold Dec.newChecked at hcd
                split at hcd
                case isTrue => rw [← Option.some.inj hcd]
                case isFalse => exact Option.noConfusion hcd
              have hc95 : 0 ≤ c95.mantissa :=
                Dec.checkedMul_mantissa_nonneg confidence ⟨212, 2⟩ c95
                  (by rw [hconf]; exact Int.ofNat_nonneg _) (by norm_num) h95
              have hc95v : 0 ≤ c95.val := (Dec.val_nonneg_iff c95).mpr hc95
              have hhi : hiv.val = price.val + c95.val := Dec.checkedAdd_val _ _ _ hadd
              have hlo : lov.val = price.val - c95.val := Dec.checkedSub_val _ _ _ hsub
              rw [← e1, ← e2, hhi, hlo]
              linarith

/-- C8: mutual exclusivity of the two directional conditions.  For any
band produced by the calculator (whose confidence input is unsigned, so
the band edges satisfy lower ≤ upper) and any sane order book (best bid
not exceeding best ask), the bid cannot be above the upper edge while
the ask is below the lower edge. -/
theorem directional_checks_exclusive (p : Price) (hi lo bid ask : Dec)
    (hg : get_pyth_confident_95_price p = some (hi, lo))
    (hsane : bid.val ≤ ask.val) :
    ¬(Dec.ltb hi bid = true ∧ Dec.ltb ask lo = true) := by
  rintro ⟨h1, h2⟩
  rw [Dec.ltb_iff] at h1 h2
  have hband := get_pyth_band_ordered p hi lo hg
  linarith

/-- Closed instance of the exclusivity theorem on the repository's
oracle band with a crossed-free book at 70. -/
theorem directional_checks_exclusive_witness :
    ¬(Dec.ltb ⟨7127225988, 8⟩ ⟨70, 0⟩ = true ∧ Dec.ltb ⟨70, 0⟩ ⟨6843263012, 8⟩ = true) :=
  directional_checks_exclusive pSell ⟨7127225988, 8⟩ ⟨6843263012, 8⟩ ⟨70, 0⟩ ⟨70, 0⟩
    (by decide) (by decide)

/-- The opportunity built from a zero best-bid quantity. -/
def oppQ0 : ArbitrageOpportunity :=
  ⟨ArbitrageDirection.SellBinanceBuyDex, ⟨0, 0⟩, ⟨0, 8⟩, ⟨712833, 4⟩, ⟨7127225988, 8⟩⟩

/-- C7 counterexample: a best-bid quantity of "0" is a legal nonnegative
feed value, the bid sits above the band, and the detector constructs and
emits an opportunity whose quantity is 0, so `quantity > 0` does not
hold for every constructed opportunity. -/
theorem opportunity_quantity_zero_counterexample :
    find_opportunity ⟨none⟩ (some pSell) (some tickQ0) =
      some (some oppQ0, ⟨some oppQ0⟩) ∧
    parseDec tickQ0.B = some ⟨0, 0⟩ ∧ ¬(0 < oppQ0.quantity.val) := by
  refine ⟨by decide, by decide, by decide⟩

/-- C7 (amended): under the feed contract that book-ticker quantities
are nonnegative, every opportunity that `find_opportunity` constructs
has nonnegative quantity and nonnegative estimated profit (quantity
equal to zero is possible, since the detector never excludes a zero
quote quantity). -/
theorem opportunity_nonneg (st : ArbitrageFinder) (p : Price) (t : BookTickerData)
    (r : ArbitrageOpportunity) (st2 : ArbitrageFinder)
    (hB : ∀ x, parseDec t.B = some x → 0 ≤ x.val)
    (hA : ∀ x, parseDec t.A = some x → 0 ≤ x.val)
    (h : find_opportunity st (some p) (some t) = some (some r, st2)) :
    0 ≤ r.quantity.val ∧ 0 ≤ r.estimated_profit.val := by
  have h0 : findCore st p t = some (some r, st2) := h
  unfold findCore at h0
  cases hg : get_pyth_confident_95_price p with
  | none => simp only [hg] at h0; exact Option.noConfusion h0
  | some pr =>
    obtain ⟨hi, lo⟩ := pr
    simp only [hg] at h0
    cases hb : parseDec t.b with
    | none => simp only [hb] at h0; exact Option.noConfusion h0
    | some bid =>
      simp only [hb] at h0
      cases hlt : Dec.ltb hi bid with
      | true =>
        simp only [hlt] at h0
        cases hq : parseDec t.B with
        | none => simp only [hq] at h0; exact Option.noConfusion h0
        | some q =>
          simp only [hq] at h0
          cases hd : Dec.checkedSub bid hi with
          | none => simp only [hd] at h0; exact Option.noConfusion h0
          | some d =>
            simp only [hd] at h0
            cases hm : Dec.checkedMul d q with
            | none => simp only [hm] at h0; exact Option.noConfusion h0
            | some profit =>
              simp only [hm] at h0
              unfold branch_result at h0
              cases hdup : dedup_check st.last_found
                  ⟨ArbitrageDirection.SellBinanceBuyDex, q, profit, bid, hi⟩ hi bid with
              | true => simp only [hdup] at h0; simp at h0
              | false =>
                simp only [hdup, Option.some.injEq, Prod.mk.injEq] at h0
                obtain ⟨h1, h2⟩ := h0
                rw [← h1]
                refine ⟨hB q hq, ?_⟩
                have hdv : d.val = bid.val - hi.val := Dec.checkedSub_val _ _ _ hd
                have hlt2 : hi.val < bid.val := (Dec.ltb_iff _ _).mp hlt
                have hdm : 0 ≤ d.mantissa :=
                  (Dec.val_nonneg_iff d).mp (by rw [hdv]; linarith)
                have hqm : 0 ≤ q.mantissa := (Dec.val_nonneg_iff q).mp (hB q hq)
                exact (Dec.val_nonneg_iff profit).mpr
                  (Dec.checkedMul_mantissa_nonneg d q profit hdm hqm hm)
      | false =>
        simp only [hlt] at h0
        cases hask : parseDec t.a with
        | none => simp only [hask] at h0; exact Option.noConfusion h0
        | some ask =>
          simp only [hask] at h0
          cases hlt2 : Dec.ltb ask lo with
          | true =>
            simp only [hlt2] at h0
            cases hqa : parseDec t.A with
            | none => simp only [hqa] at h0; exact Option.noConfusion h0
            | some qa =>
              simp only [hqa] at h0
              cases hd : Dec.checkedSub lo ask with
              | none => simp only [hd] at h0; exact Option.noConfusion h0
              | some d =>
                simp only [hd] at h0
                cases hm : Dec.checkedMul d qa with
                | none => simp only [hm] at h0; exact Option.noConfusion h0
                | some profit =>
                  simp only [hm] at h0
                  unfold branch_result at h0
                  cases hdup : dedup_check st.last_found
                      ⟨ArbitrageDirection.BuyBinanceSellDex, qa, profit, ask, lo⟩ lo ask with
                  | true => simp only [hdup] at h0; simp at h0
                  | false =>
                    simp only [hdup, Option.some.injEq, Prod.mk.injEq] at h0
                    obtain ⟨h1, h2⟩ := h0
                    rw [← h1]
                    refine ⟨hA qa hqa, ?_⟩
                    have hdv : d.val = lo.val - ask.val := Dec.checkedSub_val _ _ _ hd
                    have hlt3 : ask.val < lo.val := (Dec.ltb_iff _ _).mp hlt2
                    have hdm : 0 ≤ d.mantissa :=
                      (Dec.val_nonneg_iff d).mp (by rw [hdv]; linarith)
                    have hqm : 0 ≤ qa.mantissa := (Dec.val_nonneg_iff qa).mp (hA qa hqa)
                    exact (Dec.val_nonneg_iff profit).mpr
                      (Dec.checkedMul_mantissa_nonneg d qa profit hdm hqm hm)
          | false => simp only [hlt2] at h0; simp at h0

/-- Closed instance of the nonnegativity theorem on the repository's
sell-direction example. -/
theorem opportunity_nonneg_witness :
    0 ≤ oppSell.quantity.val ∧ 0 ≤ oppSell.estimated_profit.val :=
  opportunity_nonneg ⟨none⟩ pSell tickSell oppSell stAfterSell
    (fun x hx => by rw [← Option.some.inj hx]; decide)
    (fun x hx => by rw [← Option.some.inj hx]; decide)
    (by decide)

/-- The opportunity built from the 28-fractional-digit bid quantity. -/
def oppTiny : ArbitrageOpportunity :=
  ⟨ArbitrageDirection.SellBinanceBuyDex, ⟨1, 28⟩, ⟨0, 28⟩, ⟨713, 1⟩, ⟨7127225988, 8⟩⟩

/-- C2 counterexample: with the repository's oracle band, bid `71.3`
above the upper edge `71.27225988` and bid quantity `1e-28`, the sell
opportunity is emitted, but its estimated profit is the precision-cap
rounding of the product, not the exact value
`(best_bid_price - upper) * quantity`: the exact product `2774012e-36`
has no 28-digit representation and the stored profit is `0`. -/
theorem estimated_profit_not_exact_counterexample :
    find_opportunity ⟨none⟩ (some pSell) (some tickTiny) =
      some (some oppTiny, ⟨some oppTiny⟩) ∧
    get_pyth_confident_95_price pSell = some (⟨7127225988, 8⟩, ⟨6843263012, 8⟩) ∧
    parseDec tickTiny.b = some ⟨713, 1⟩ ∧
    parseDec tickTiny.B = some ⟨1, 28⟩ ∧
    oppTiny.estimated_profit.val ≠
      (Dec.val ⟨713, 1⟩ - Dec.val ⟨7127225988, 8⟩) * Dec.val ⟨1, 28⟩ := by
  have hval : (Dec.val ⟨713, 1⟩ - Dec.val ⟨7127225988, 8⟩) * Dec.val ⟨1, 28⟩ =
      Dec.val ⟨2774012, 36⟩ := by
    simp only [Dec.val_eq_div]
    norm_num
  refine ⟨by decide, by decide, by decide, by decide, ?_⟩
  rw [hval]
  decide

/-- C2 (amended): sell-branch correctness in the exactly representable
regime.  If both cells are populated, the parsed best bid is strictly
above the computed upper band edge, the gap times the bid quantity is
exactly representable (combined scale within 28 digits, product mantissa
within 96 bits), and the candidate is not a duplicate of `last_found`,
then `find_opportunity` emits an opportunity with direction
`SellBinanceBuyDex`, quantity the parsed bid quantity, and estimated
profit exactly `(best_bid_price - upper) * quantity`. -/
theorem sell_branch_opportunity (st : ArbitrageFinder) (p : Price) (t : BookTickerData)
    (hi lo bid q d : Dec)
    (hg : get_pyth_confident_95_price p = some (hi, lo))
    (hb : parseDec t.b = some bid)
    (hlt : Dec.ltb hi bid = true)
    (hq : parseDec t.B = some q)
    (hd : Dec.checkedSub bid hi = some d)
    (hs : d.scale + q.scale ≤ 28)
    (hm96 : (d.mantissa * q.mantissa).natAbs < 2 ^ 96)
    (hdup : dedup_check st.last_found
      ⟨ArbitrageDirection.SellBinanceBuyDex, q,
        ⟨d.mantissa * q.mantissa, d.scale + q.scale⟩, bid, hi⟩ hi bid = false) :
    ∃ r, find_opportunity st (some p) (some t) = some (some r, ⟨some r⟩) ∧
      r.direction = ArbitrageDirection.SellBinanceBuyDex ∧ r.quantity = q ∧
      r.binance_price = bid ∧ r.pyth_price = hi ∧
      r.estimated_profit.val = (bid.val - hi.val) * q.val := by
  have hm : Dec.checkedMul d q = some ⟨d.mantissa * q.mantissa, d.scale + q.scale⟩ :=
    Dec.checkedMul_exact d q hs hm96
  refine ⟨⟨ArbitrageDirection.SellBinanceBuyDex, q,
    ⟨d.mantissa * q.mantissa, d.scale + q.scale⟩, bid, hi⟩, ?_, rfl, rfl, rfl, rfl, ?_⟩
  · show findCore st p t = _
    unfold findCore
    simp only [hg, hb, hlt, hq, hd, hm, branch_result, hdup]
  · have e1 : Dec.val ⟨d.mantissa * q.mantissa, d.scale + q.scale⟩ = d.val * q.val :=
      Dec.checkedMul_val_exact d q hs hm96 _ hm
    have e2 : d.val = bid.val - hi.val := Dec.checkedSub_val _ _ _ hd
    show Dec.val ⟨d.mantissa * q.mantissa, d.scale + q.scale⟩ = _
    rw [e1, e2]

/-- Closed instance of the sell-branch theorem on the repository's
sell-direction example, reproducing the documented profit
`0.009465798888`. -/
theorem sell_branch_opportunity_witness :
    ∃ r, find_opportunity ⟨none⟩ (some pSell) (some tickSell) = some (some r, ⟨some r⟩) ∧
      r.direction = ArbitrageDirection.SellBinanceBuyDex ∧ r.quantity = ⟨8574, 4⟩ ∧
      r.binance_price = ⟨712833, 4⟩ ∧ r.pyth_price = ⟨7127225988, 8⟩ ∧
      r.estimated_profit.val =
        (Dec.val ⟨712833, 4⟩ - Dec.val ⟨7127225988, 8⟩) * Dec.val ⟨8574, 4⟩ :=
  sell_branch_opportunity ⟨none⟩ pSell tickSell ⟨7127225988, 8⟩ ⟨6843263012, 8⟩
    ⟨712833, 4⟩ ⟨8574, 4⟩ ⟨1104012, 8⟩ (by decide) (by decide) (by decide) (by decide)
    (by decide) (by decide) (by decide) (by decide)

/-- Oracle observation with a positive exponent. -/
def pExpoPos : Price := { price := 100, conf := 100, expo := 1 }

/-- C4 counterexample: the calculator scales by `10^(-|exponent|)`
regardless of the exponent's sign, so for exponent `+1` and confidence
`100` the band width is `100 * 4.24 / 10 = 42.4`, not
`confidence * 10^exponent * 4.24 = 4240`. -/
theorem band_width_positive_expo_counterexample :
    get_pyth_confident_95_price pExpoPos = some (⟨31200, 3⟩, ⟨-11200, 3⟩) ∧
    Dec.val ⟨31200, 3⟩ - Dec.val ⟨-11200, 3⟩ ≠
      (pExpoPos.conf : ℚ) * 10 ^ pExpoPos.expo * Dec.val ⟨424, 2⟩ := by
  refine ⟨by decide, ?_⟩
  have hR : (pExpoPos.conf : ℚ) * 10 ^ pExpoPos.expo * Dec.val ⟨424, 2⟩ =
      Dec.val ⟨4240, 0⟩ := by
    simp only [pExpoPos, Dec.val_eq_div]
    norm_num
  have hL : Dec.val ⟨31200, 3⟩ - Dec.val ⟨-11200, 3⟩ = Dec.val ⟨424, 1⟩ := by
    simp only [Dec.val_eq_div]
    norm_num
  rw [hR, hL]
  decide

/-- C4 (amended): band width in the representable regime.  For an i64
price mantissa, an i64-convertible confidence and |exponent| ≤ 26 (so
the two extra scale digits of the `2.12` factor stay within the
28-digit cap), the calculator succeeds and the band width is exactly
`confidence * 4.24 * 10^(-|exponent|)`: the exponent contributes through
its absolute value. -/
theorem band_width_exact (m e : Int) (c : Nat) (hm : m.natAbs ≤ 2 ^ 63)
    (he : e.natAbs ≤ 26) (hc : c < 2 ^ 63) :
    ∃ hi lo, get_pyth_confident_95_price ⟨m, c, e⟩ = some (hi, lo) ∧
      hi.val - lo.val = (c : ℚ) * (106 / 25) / 10 ^ e.natAbs := by
  have h1 : Dec.newChecked m e.natAbs = some ⟨m, e.natAbs⟩ := by
    unfold Dec.newChecked
    rw [if_pos (by omega)]
  have h2 : Dec.newChecked (Int.ofNat c) e.natAbs = some ⟨Int.ofNat c, e.natAbs⟩ := by
    unfold Dec.newChecked
    rw [if_pos (by omega)]
  have h3 : Dec.checkedMul ⟨Int.ofNat c, e.natAbs⟩ ⟨212, 2⟩ =
      some ⟨Int.ofNat c * 212, e.natAbs + 2⟩ :=
    Dec.checkedMul_exact _ _ (by show e.natAbs + 2 ≤ 28; omega)
      (by show ((c : Int) * 212).natAbs < 2 ^ 96; omega)
  have hmax : max e.natAbs (e.natAbs + 2) = e.natAbs + 2 := by omega
  have hs1 : e.natAbs + 2 - e.natAbs = 2 := by omega
  have hs2 : e.natAbs + 2 - (e.natAbs + 2) = 0 := by omega
  have h4 : Dec.checkedAdd ⟨m, e.natAbs⟩ ⟨Int.ofNat c * 212, e.natAbs + 2⟩ =
      some ⟨m * 10 ^ 2 + Int.ofNat c * 212 * 10 ^ 0, e.natAbs + 2⟩ := by
    unfold Dec.checkedAdd
    simp only [hmax, hs1, hs2]
    rw [if_pos (by
      show (m * 10 ^ 2 + Int.ofNat c * 212 * 10 ^ 0).natAbs < 2 ^ 96
      norm_num
      omega)]
  have h5 : Dec.checkedSub ⟨m, e.natAbs⟩ ⟨Int.ofNat c * 212, e.natAbs + 2⟩ =
      some ⟨m * 10 ^ 2 + -(Int.ofNat c * 212) * 10 ^ 0, e.natAbs + 2⟩ := by
    unfold Dec.checkedSub Dec.checkedAdd
    simp only [hmax, hs1, hs2]
    rw [if_pos (by
      show (m * 10 ^ 2 + -(Int.ofNat c * 212) * 10 ^ 0).natAbs < 2 ^ 96
      norm_num
      omega)]
  refine ⟨⟨m * 10 ^ 2 + Int.ofNat c * 212 * 10 ^ 0, e.natAbs + 2⟩,
    ⟨m * 10 ^ 2 + -(Int.ofNat c * 212) * 10 ^ 0, e.natAbs + 2⟩, ?_, ?_⟩
  · show get_pyth_confident_95_price ⟨m, c, e⟩ = _
    unfold get_pyth_confident_95_price
    simp only [h1, if_pos hc, h2, h3, h4, h5]
  · simp only [Dec.val_eq_div]
    have hne : (10 : ℚ) ^ e.natAbs ≠ 0 := by positivity
    have h10 : (10 : ℚ) ^ (e.natAbs + 2) = 10 ^ e.natAbs * 100 := by
      rw [pow_add]
      norm_num
    rw [div_sub_div_same, h10]
    push_cast
    field_simp
    ring

/-- Closed instance of the band-width theorem on the repository's
oracle observation: width `669724 * 4.24 * 10^(-6)`. -/
theorem band_width_exact_witness :
    ∃ hi lo, get_pyth_confident_95_price ⟨69852445, 669724, -6⟩ = some (hi, lo) ∧
      hi.val - lo.val = (669724 : ℚ) * (106 / 25) / 10 ^ (-6 : Int).natAbs :=
  band_width_exact 69852445 (-6) 669724 (by decide) (by decide) (by decide)
